import Mathlib

/-!
Verification of the odds-aggregation core of the draft-killer repository.

The definitions below are a shallow embedding of the Python sources under
backend/app/services: the provider client (odds_api/client.py), the
bookmaker-comparison service (odds_api/service.py), the arbitrage helper
(odds_api/helpers.py) and the legacy odds service (odds_service.py).
Python floats are modelled as rationals, machine-level hashing (hashlib.md5)
is reproduced bit for bit over Nat arithmetic mod 2^32, and Python dicts are
modelled as association lists with update-in-place-or-append semantics.
-/

namespace DraftKiller

/-! ## Python string primitives -/

/-- Whitespace characters recognised by the Python str.strip / regex \s class
(ASCII range). -/
def pySpace (c : Char) : Bool :=
  c = ' ' || c = '\t' || c = '\n' || c = '\r' || c = '\x0b' || c = '\x0c'

/-- ASCII decimal digit, the characters matched by the regex class \d on the
inputs of interest. -/
def pyDigit (c : Char) : Bool := '0' ≤ c && c ≤ '9'

/-- Python str.strip on a character list: drop whitespace from both ends. -/
def pyStrip (l : List Char) : List Char :=
  ((l.dropWhile pySpace).reverse.dropWhile pySpace).reverse

/-- Python str.lower, ASCII case folding. -/
def pyLower (l : List Char) : List Char := l.map Char.toLower

/-- Python str.upper, ASCII case folding. -/
def pyUpper (l : List Char) : List Char := l.map Char.toUpper

/-- Python substring test (the "in" operator on str): the needle occurs
contiguously inside the haystack. -/
def strContains (needle hay : String) : Bool :=
  decide (needle.toList <:+: hay.toList)

/-- Python str.replace for a two-character pattern with empty replacement,
scanning left to right without overlap (s.replace(xy, "")). -/
def pyRemovePair (x y : Char) : List Char → List Char
  | a :: b :: t =>
    if a = x ∧ b = y then pyRemovePair x y t
    else a :: pyRemovePair x y (b :: t)
  | l => l

/-! ## hashlib.md5, modelled over Nat arithmetic mod 2^32

The client derives every cache key as hashlib.md5(content).hexdigest().
The digest algorithm (RFC 1321) is reproduced here so that properties of the
key alphabet can be proved. -/

/-- UTF-8 encoding of one code point (str.encode()). -/
def utf8Bytes (c : Char) : List Nat :=
  let n := c.toNat
  if n < 0x80 then [n]
  else if n < 0x800 then [0xC0 + n / 0x40, 0x80 + n % 0x40]
  else if n < 0x10000 then
    [0xE0 + n / 0x1000, 0x80 + n / 0x40 % 0x40, 0x80 + n % 0x40]
  else
    [0xF0 + n / 0x40000, 0x80 + n / 0x1000 % 0x40, 0x80 + n / 0x40 % 0x40,
     0x80 + n % 0x40]

/-- UTF-8 bytes of a string. -/
def strBytes (s : String) : List Nat :=
  s.toList.foldr (fun c acc => utf8Bytes c ++ acc) []

/-- Modulus for 32-bit arithmetic. -/
def M32 : Nat := 4294967296

/-- Left rotation of a 32-bit word. -/
def rotl32 (x s : Nat) : Nat := (x * 2 ^ s + x / 2 ^ (32 - s)) % M32

/-- Sine-derived round constants of MD5 (floor(abs(sin(i+1)) * 2^32)). -/
def md5K : List Nat :=
  [0xd76aa478, 0xe8c7b756, 0x242070db, 0xc1bdceee,
   0xf57c0faf, 0x4787c62a, 0xa8304613, 0xfd469501,
   0x698098d8, 0x8b44f7af, 0xffff5bb1, 0x895cd7be,
   0x6b901122, 0xfd987193, 0xa679438e, 0x49b40821,
   0xf61e2562, 0xc040b340, 0x265e5a51, 0xe9b6c7aa,
   0xd62f105d, 0x02441453, 0xd8a1e681, 0xe7d3fbc8,
   0x21e1cde6, 0xc33707d6, 0xf4d50d87, 0x455a14ed,
   0xa9e3e905, 0xfcefa3f8, 0x676f02d9, 0x8d2a4c8a,
   0xfffa3942, 0x8771f681, 0x6d9d6122, 0xfde5380c,
   0xa4beea44, 0x4bdecfa9, 0xf6bb4b60, 0xbebfbc70,
   0x289b7ec6, 0xeaa127fa, 0xd4ef3085, 0x04881d05,
   0xd9d4d039, 0xe6db99e5, 0x1fa27cf8, 0xc4ac5665,
   0xf4292244, 0x432aff97, 0xab9423a7, 0xfc93a039,
   0x655b59c3, 0x8f0ccc92, 0xffeff47d, 0x85845dd1,
   0x6fa87e4f, 0xfe2ce6e0, 0xa3014314, 0x4e0811a1,
   0xf7537e82, 0xbd3af235, 0x2ad7d2bb, 0xeb86d391]

/-- Per-round left-rotation amounts of MD5. -/
def md5S : List Nat :=
  [7, 12, 17, 22, 7, 12, 17, 22, 7, 12, 17, 22, 7, 12, 17, 22,
   5, 9, 14, 20, 5, 9, 14, 20, 5, 9, 14, 20, 5, 9, 14, 20,
   4, 11, 16, 23, 4, 11, 16, 23, 4, 11, 16, 23, 4, 11, 16, 23,
   6, 10, 15, 21, 6, 10, 15, 21, 6, 10, 15, 21, 6, 10, 15, 21]

/-- Bitwise complement of a 32-bit word. -/
def not32 (x : Nat) : Nat := Nat.xor x 0xFFFFFFFF

/-- MD5 padding: append 0x80, zero bytes to 56 mod 64, then the bit length
as a 64-bit little-endian quantity. -/
def md5Pad (msg : List Nat) : List Nat :=
  let len := msg.length
  let zeros := (119 - len % 64) % 64
  let bitLen := 8 * len % 2 ^ 64
  msg ++ [0x80] ++ List.replicate zeros 0 ++
    ((List.range 8).map fun i => bitLen / 2 ^ (8 * i) % 256)

/-- Split a byte list into 64-byte blocks (fuel-structured recursion; the
fuel, one unit per remaining byte, always suffices because every step
consumes at least one byte). -/
def chunks64Go : Nat → List Nat → List (List Nat)
  | 0, _ => []
  | _, [] => []
  | fuel + 1, b :: t => ((b :: t).take 64) :: chunks64Go fuel ((b :: t).drop 64)

/-- Split a byte list into 64-byte blocks. -/
def chunks64 (l : List Nat) : List (List Nat) := chunks64Go l.length l

/-- Little-endian 32-bit word j of a 64-byte block. -/
def blockWord (block : List Nat) (j : Nat) : Nat :=
  block.getD (4 * j) 0 + 256 * block.getD (4 * j + 1) 0 +
    65536 * block.getD (4 * j + 2) 0 + 16777216 * block.getD (4 * j + 3) 0

/-- One round of the MD5 compression function. -/
def md5Round (block : List Nat) (st : Nat × Nat × Nat × Nat) (i : Nat) :
    Nat × Nat × Nat × Nat :=
  let (a, b, c, d) := st
  let fg : Nat × Nat :=
    if i < 16 then ((b &&& c) ||| (not32 b &&& d), i)
    else if i < 32 then ((d &&& b) ||| (not32 d &&& c), (5 * i + 1) % 16)
    else if i < 48 then (Nat.xor (Nat.xor b c) d, (3 * i + 5) % 16)
    else (Nat.xor c (b ||| not32 d), (7 * i) % 16)
  let tmp := (a + fg.1 + md5K.getD i 0 + blockWord block fg.2) % M32
  (d, (b + rotl32 tmp (md5S.getD i 0)) % M32, b, c)

/-- MD5 compression of one block added onto the running state. -/
def md5Block (st : Nat × Nat × Nat × Nat) (block : List Nat) :
    Nat × Nat × Nat × Nat :=
  let (a, b, c, d) := (List.range 64).foldl (md5Round block) st
  ((st.1 + a) % M32, (st.2.1 + b) % M32, (st.2.2.1 + c) % M32,
   (st.2.2.2 + d) % M32)

/-- Little-endian byte decomposition of a 32-bit word. -/
def wordBytes (w : Nat) : List Nat :=
  [w % 256, w / 256 % 256, w / 65536 % 256, w / 16777216 % 256]

/-- The sixteen digest bytes of MD5 applied to a byte message. -/
def md5Digest (msg : List Nat) : List Nat :=
  let st := (chunks64 (md5Pad msg)).foldl md5Block
    (0x67452301, 0xefcdab89, 0x98badcfe, 0x10325476)
  wordBytes st.1 ++ wordBytes st.2.1 ++ wordBytes st.2.2.1 ++ wordBytes st.2.2.2

/-- Lowercase hexadecimal digit characters. -/
def hexChars : List Char := "0123456789abcdef".toList

/-- Hex digit for a nibble. -/
def toHexChar (n : Nat) : Char := hexChars.getD (n % 16) '0'

/-- Lowercase hex rendering of a byte list. -/
def bytesToHex : List Nat → List Char
  | [] => []
  | b :: t => toHexChar (b / 16) :: toHexChar b :: bytesToHex t

/-- hashlib.md5(s.encode()).hexdigest(). -/
def md5Hex (s : String) : String :=
  String.mk (bytesToHex (md5Digest (strBytes s)))

theorem toHexChar_mem_hexChars (n : Nat) : toHexChar n ∈ hexChars := by
  unfold toHexChar
  rcases h : (hexChars.getD (n % 16) '0') with _
  by_cases hlt : n % 16 < hexChars.length
  · rw [← h]
    rw [List.getD_eq_getElem _ _ hlt]
    exact List.getElem_mem hlt
  · rw [← h]
    rw [List.getD_eq_default _ _ (Nat.le_of_not_lt hlt)]
    decide

theorem bytesToHex_mem (l : List Nat) (c : Char) (hc : c ∈ bytesToHex l) :
    c ∈ hexChars := by
  induction l with
  | nil => simp [bytesToHex] at hc
  | cons b t ih =>
    simp only [bytesToHex, List.mem_cons] at hc
    rcases hc with h | h | h
    · exact h ▸ toHexChar_mem_hexChars _
    · exact h ▸ toHexChar_mem_hexChars _
    · exact ih h

/-- Every character of an md5 hex digest is a lowercase hex digit. -/
theorem md5Hex_chars (s : String) (c : Char) (hc : c ∈ (md5Hex s).toList) :
    c ∈ hexChars := by
  have : (md5Hex s).toList = bytesToHex (md5Digest (strBytes s)) := rfl
  rw [this] at hc
  exact bytesToHex_mem _ _ hc

/-! ## OddsApiClient cache keys (client.py, _make_cache_key)

The key is md5 of "endpoint?" followed by "&"-joined "k=v" pairs of the
parameters sorted the way Python sorted() orders (str, str) tuples:
lexicographically by first component, then by second. -/

/-- Ordering used by Python sorted() on (str, str) pairs. -/
def pairLe (a b : String × String) : Prop :=
  a.1 < b.1 ∨ (a.1 = b.1 ∧ a.2 ≤ b.2)

instance : DecidableRel pairLe := fun a b =>
  inferInstanceAs (Decidable (_ ∨ _))

instance : IsTotal (String × String) pairLe := by
  constructor
  intro a b
  rcases lt_trichotomy a.1 b.1 with h | h | h
  · exact Or.inl (Or.inl h)
  · rcases le_total a.2 b.2 with h2 | h2
    · exact Or.inl (Or.inr ⟨h, h2⟩)
    · exact Or.inr (Or.inr ⟨h.symm, h2⟩)
  · exact Or.inr (Or.inl h)

instance : IsTrans (String × String) pairLe := by
  constructor
  intro a b c hab hbc
  rcases hab with h1 | ⟨h1, h1v⟩
  · rcases hbc with h2 | ⟨h2, _⟩
    · exact Or.inl (lt_trans h1 h2)
    · exact Or.inl (h2 ▸ h1)
  · rcases hbc with h2 | ⟨h2, h2v⟩
    · exact Or.inl (h1 ▸ h2)
    · exact Or.inr ⟨h1.trans h2, le_trans h1v h2v⟩

instance : IsAntisymm (String × String) pairLe := by
  constructor
  intro a b hab hba
  rcases hab with h1 | ⟨h1, h1v⟩
  · rcases hba with h2 | ⟨h2, _⟩
    · exact absurd h1 (lt_asymm h2)
    · exact absurd h1 (h2 ▸ lt_irrefl _)
  · rcases hba with h2 | ⟨h2, h2v⟩
    · exact absurd h2 (h1 ▸ lt_irrefl _)
    · exact Prod.ext h1 (le_antisymm h1v h2v)

/-- Python sorted(params.items()). -/
def sortParams (params : List (String × String)) : List (String × String) :=
  List.insertionSort pairLe params

/-- OddsApiClient._make_cache_key. -/
def makeCacheKey (endpoint : String) (params : List (String × String)) : String :=
  let paramStr :=
    String.intercalate "&" ((sortParams params).map fun kv => kv.1 ++ "=" ++ kv.2)
  md5Hex (endpoint ++ "?" ++ paramStr)

theorem sortParams_perm_eq {p q : List (String × String)} (h : p.Perm q) :
    sortParams p = sortParams q :=
  List.eq_of_perm_of_sorted
    ((List.perm_insertionSort pairLe p).trans
      (h.trans (List.perm_insertionSort pairLe q).symm))
    (List.sorted_insertionSort pairLe p)
    (List.sorted_insertionSort pairLe q)

/-- C7. Cache keys are a deterministic hash of the endpoint together with the
sorted parameter items, so supplying the same parameter set in any order
yields an identical cache key. -/
theorem C7_cache_key_order_independent (endpoint : String)
    (p q : List (String × String)) (h : p.Perm q) :
    makeCacheKey endpoint p = makeCacheKey endpoint q := by
  unfold makeCacheKey
  rw [sortParams_perm_eq h]

/-- C7 witness: the key of a two-parameter dict does not depend on the order
in which the parameters were supplied. -/
theorem C7_cache_key_order_independent_witness :
    makeCacheKey "/sports" [("a", "1"), ("b", "2")] =
      makeCacheKey "/sports" [("b", "2"), ("a", "1")] :=
  C7_cache_key_order_independent "/sports" _ _ (by decide)

/-! ## OddsApiClient state (client.py)

Python dicts are association lists looked up by first matching key and
updated in place or appended. Timestamps are integer seconds; datetime.now()
becomes an explicit time argument. The JSON payload of a response is left
opaque as a string. Provider quota headers carry integer values, so the
int(...) conversion applied by the client is modelled as the value itself. -/

/-- Lookup in a Python dict. -/
def dictLookup {β : Type} (m : List (String × β)) (k : String) : Option β :=
  (m.find? fun kv => kv.1 == k).map (·.2)

/-- Assignment d[k] = v in a Python dict: replace in place or append. -/
def dictInsert {β : Type} (m : List (String × β)) (k : String) (v : β) :
    List (String × β) :=
  match m with
  | [] => [(k, v)]
  | (k0, v0) :: t => if k0 = k then (k, v) :: t else (k0, v0) :: dictInsert t k v

deriving instance DecidableEq for Except

/-- CacheEntry dataclass: data, timestamp and ttl in seconds. -/
structure CacheEntry where
  data : String
  timestamp : Int
  ttl : Nat
deriving Repr, DecidableEq

/-- ApiUsage dataclass: all fields start out None. -/
structure ApiUsage where
  requests_remaining : Option Int := none
  requests_used : Option Int := none
  requests_last_cost : Option Int := none
  last_reset : Option Int := none
deriving Repr, DecidableEq

/-- Mutable state of an OddsApiClient: the TTL cache, the request
deduplication dict and the usage tracker. -/
structure ClientState where
  cache : List (String × CacheEntry)
  requestCache : List (String × String)
  usage : ApiUsage
deriving Repr, DecidableEq

/-- CACHE_DEFAULT_TTL (30 minutes). -/
def CACHE_DEFAULT_TTL : Nat := 1800

/-- CACHE_SPORTS_TTL (1 hour). -/
def CACHE_SPORTS_TTL : Nat := 3600

/-- OddsApiClient._is_cache_valid: the entry exists and
now - entry.timestamp < entry.ttl seconds. -/
def isCacheValid (s : ClientState) (now : Int) (key : String) : Bool :=
  match dictLookup s.cache key with
  | none => false
  | some e => decide (now - e.timestamp < (e.ttl : Int))

/-- Case-insensitive header lookup, as on a requests CaseInsensitiveDict
queried with a lowercase name. -/
def lookupHeader (headers : List (String × Int)) (name : String) : Option Int :=
  (headers.find? fun kv => String.mk (pyLower kv.1.toList) == name).map (·.2)

/-- OddsApiClient._update_usage_from_response: copy each of the three quota
headers into the usage record when present. -/
def updateUsageFromResponse (u : ApiUsage) (headers : List (String × Int)) :
    ApiUsage :=
  let u1 := match lookupHeader headers "x-requests-remaining" with
    | some v => { u with requests_remaining := some v }
    | none => u
  let u2 := match lookupHeader headers "x-requests-used" with
    | some v => { u1 with requests_used := some v }
    | none => u1
  match lookupHeader headers "x-requests-last" with
  | some v => { u2 with requests_last_cost := some v }
  | none => u2

/-- Outcome of the one blocking upstream call requests.get inside
_make_request: a decoded 2xx body with response headers, a 429, a 401, some
other non-2xx status (raise_for_status), or a network-level failure. -/
inductive Upstream where
  | ok (data : String) (headers : List (String × Int))
  | status429
  | status401
  | statusErr
  | netErr
deriving Repr, DecidableEq

/-- Result of the code of _make_request that runs before the blocking
upstream call: either an early return with a payload, or the decision to
fetch the given key upstream. -/
inductive Phase1Out where
  | early (r : Except Nat String)
  | fetching (key : String)
deriving Repr, DecidableEq

/-- Lines 107-115 of client.py: compute the cache key, serve a valid cache
entry, else serve the request-deduplication dict, else start a fetch. -/
def makeRequestPhase1 (s : ClientState) (now : Int) (endpoint : String)
    (params : List (String × String)) (useCache : Bool) : Phase1Out :=
  let key := makeCacheKey endpoint params
  if useCache && isCacheValid s now key then
    .early (.ok ((dictLookup s.cache key).map (·.data)).iget)
  else
    match dictLookup s.requestCache key with
    | some v => .early (.ok v)
    | none => .fetching key

/-- Lines 121-162 of client.py, from the return of requests.get on: map
status codes to HTTPException codes (429, 401, and 500 both for other HTTP
errors raised by raise_for_status and for network failures, all of which
are requests.RequestException); on success update usage, write the cache
entry with ttl = cache_ttl or CACHE_DEFAULT_TTL (Python or: a 0 ttl also
falls back to the default), and store the payload in the deduplication
dict. -/
def makeRequestPhase2 (s : ClientState) (up : Upstream) (now : Int)
    (key : String) (cacheTtl : Option Nat) : Except Nat String × ClientState :=
  match up with
  | .status429 => (.error 429, s)
  | .status401 => (.error 401, s)
  | .statusErr => (.error 500, s)
  | .netErr => (.error 500, s)
  | .ok data headers =>
    let ttl := match cacheTtl with
      | some t => if t = 0 then CACHE_DEFAULT_TTL else t
      | none => CACHE_DEFAULT_TTL
    (.ok data,
      { cache := dictInsert s.cache key ⟨data, now, ttl⟩
        requestCache := dictInsert s.requestCache key data
        usage := updateUsageFromResponse s.usage headers })

/-- OddsApiClient._make_request, composed from the two phases around the
blocking upstream call. The Bool records whether an upstream HTTP request
was issued. -/
def makeRequest (s : ClientState) (up : Upstream) (now : Int) (endpoint : String)
    (params : List (String × String)) (cacheTtl : Option Nat) (useCache : Bool) :
    Except Nat String × ClientState × Bool :=
  match makeRequestPhase1 s now endpoint params useCache with
  | .early r => (r, s, false)
  | .fetching key =>
    let rs := makeRequestPhase2 s up now key cacheTtl
    (rs.1, rs.2, true)

/-- Return value of OddsApiClient.get_usage_info. -/
structure UsageInfoOut where
  requests_remaining : Option Int
  requests_used : Option Int
  requests_last_cost : Option Int
  cache_size : Nat
deriving Repr, DecidableEq

/-- OddsApiClient.get_usage_info, paired with the (unchanged) client state. -/
def getUsageInfo (s : ClientState) : UsageInfoOut × ClientState :=
  (⟨s.usage.requests_remaining, s.usage.requests_used,
    s.usage.requests_last_cost, s.cache.length⟩, s)

/-- OddsApiClient.clear_cache. -/
def clearCache (s : ClientState) : ClientState :=
  { cache := [], requestCache := [], usage := s.usage }

/-- OddsApiClient.clear_cache_for_sport: collect the cache keys containing
sport_key as a substring, delete them from the cache, and delete those
of them that also appear in the request-deduplication dict. -/
def clearCacheForSport (s : ClientState) (sport_key : String) : ClientState :=
  let keysToRemove :=
    (s.cache.map Prod.fst).filter fun k => strContains sport_key k
  { cache := s.cache.filter fun kv => !(keysToRemove.contains kv.1)
    requestCache := s.requestCache.filter fun kv => !(keysToRemove.contains kv.1)
    usage := s.usage }

/-! ## Two concurrent callers of _make_request (claim C3)

A thread executing _make_request runs phase 1, and, when phase 1 decides to
fetch, suspends at the blocking requests.get before running phase 2. A
schedule is the order in which threads take these two steps on the shared
client state; the fetch counter counts issued upstream HTTP requests. -/

/-- Execution position of one caller of _make_request. -/
inductive ThreadSt where
  | pending
  | fetchingAt (key : String)
  | done (r : Except Nat String)
deriving Repr, DecidableEq

/-- Shared client state, the position of every thread, and the number of
upstream HTTP requests issued so far. -/
structure ConcState where
  shared : ClientState
  threads : List ThreadSt
  fetches : Nat
deriving Repr, DecidableEq

/-- One scheduler step: the chosen thread runs its next portion of
_make_request (all threads issue the same request with use_cache=True). -/
def stepThread (up : Upstream) (now : Int) (endpoint : String)
    (params : List (String × String)) (cacheTtl : Option Nat)
    (cs : ConcState) (tid : Nat) : ConcState :=
  match cs.threads.getD tid (.done (.error 0)) with
  | .pending =>
    match makeRequestPhase1 cs.shared now endpoint params true with
    | .early r => { cs with threads := cs.threads.set tid (.done r) }
    | .fetching key =>
      { cs with threads := cs.threads.set tid (.fetchingAt key)
                fetches := cs.fetches + 1 }
  | .fetchingAt key =>
    let rs := makeRequestPhase2 cs.shared up now key cacheTtl
    { shared := rs.2, threads := cs.threads.set tid (.done rs.1)
      fetches := cs.fetches }
  | .done _ => cs

/-- Run a schedule of thread steps. -/
def runSchedule (up : Upstream) (now : Int) (endpoint : String)
    (params : List (String × String)) (cacheTtl : Option Nat)
    (cs : ConcState) (sched : List Nat) : ConcState :=
  sched.foldl (stepThread up now endpoint params cacheTtl) cs

/-- C1. The claim requires that a payload fetched at t0 with TTL T is served
from cache for reads before t0+T (this part holds) and that the first read
at or after t0+T performs exactly one upstream refetch. The code instead
stores every successful payload permanently in the request-deduplication
dict and consults that dict whenever the TTL check fails, so the read at
t0+T returns the stale payload and issues no upstream request at all. -/
theorem C1_expired_entry_served_from_request_cache :
    (makeRequest ⟨[], [], {}⟩ (.ok "v1" []) 0 "/sports" [] none true).1 =
        .ok "v1" ∧
    (makeRequest ⟨[], [], {}⟩ (.ok "v1" []) 0 "/sports" [] none true).2.2 =
        true ∧
    (∀ s1, s1 = (makeRequest ⟨[], [], {}⟩ (.ok "v1" []) 0 "/sports" [] none
        true).2.1 →
      -- a read inside the TTL window (t = 900 < 0 + 1800) serves the cache:
      makeRequest s1 (.ok "v2" []) 900 "/sports" [] none true =
          (.ok "v1", s1, false) ∧
      -- the first read at expiry (t = 1800 = t0 + ttl) must refetch per the
      -- claim, but is served stale data with no upstream request:
      makeRequest s1 (.ok "v2" []) 1800 "/sports" [] none true =
          (.ok "v1", s1, false)) := by
  refine ⟨by decide, by decide, ?_⟩
  intro s1 hs1
  subst hs1
  exact ⟨by decide, by decide⟩

/-- C3. Two concurrent callers of _make_request for the same uncached key:
under the interleaving in which both run the pre-fetch checks before either
response arrives, both pass the deduplication check (the dict is only
written after a response) and both issue an upstream HTTP request - two
fetches, not the one the claim requires. Both callers do observe the same
payload. -/
theorem C3_concurrent_callers_fetch_twice :
    (runSchedule (.ok "v" []) 0 "/sports" [] none
        ⟨⟨[], [], {}⟩, [.pending, .pending], 0⟩ [0, 1, 0, 1]).fetches = 2 ∧
    (runSchedule (.ok "v" []) 0 "/sports" [] none
        ⟨⟨[], [], {}⟩, [.pending, .pending], 0⟩ [0, 1, 0, 1]).threads =
      [.done (.ok "v"), .done (.ok "v")] := by
  constructor
  · decide
  · decide

/-- C9. The quota recorder copies requests_remaining, requests_used and
requests_last_cost from the headers x-requests-remaining, x-requests-used
and x-requests-last exactly when present, leaves each prior value unchanged
when its header is absent (never resetting to None), never touches
last_reset, and get_usage_info is a pure read returning the stored values
without modifying the client state. -/
theorem C9_usage_recording (u : ApiUsage) (headers : List (String × Int))
    (s : ClientState) :
    ((updateUsageFromResponse u headers).requests_remaining =
        match lookupHeader headers "x-requests-remaining" with
        | some v => some v
        | none => u.requests_remaining) ∧
    ((updateUsageFromResponse u headers).requests_used =
        match lookupHeader headers "x-requests-used" with
        | some v => some v
        | none => u.requests_used) ∧
    ((updateUsageFromResponse u headers).requests_last_cost =
        match lookupHeader headers "x-requests-last" with
        | some v => some v
        | none => u.requests_last_cost) ∧
    ((updateUsageFromResponse u headers).last_reset = u.last_reset) ∧
    (getUsageInfo s =
      (⟨s.usage.requests_remaining, s.usage.requests_used,
        s.usage.requests_last_cost, s.cache.length⟩, s)) := by
  unfold updateUsageFromResponse
  rcases h1 : lookupHeader headers "x-requests-remaining" with _ | v1 <;>
    rcases h2 : lookupHeader headers "x-requests-used" with _ | v2 <;>
    rcases h3 : lookupHeader headers "x-requests-last" with _ | v3 <;>
    simp [getUsageInfo]

/-- Characterisation of the Python substring test. -/
theorem strContains_true_iff (needle hay : String) :
    strContains needle hay = true ↔ needle.toList <:+: hay.toList := by
  unfold strContains
  exact decide_eq_true_iff

/-- Keys produced by _make_cache_key consist of hex digits only. -/
theorem makeCacheKey_chars (endpoint : String) (params : List (String × String))
    (c : Char) (hc : c ∈ (makeCacheKey endpoint params).toList) : c ∈ hexChars :=
  md5Hex_chars _ _ hc

/-- C10. Every cache key is an md5 hex digest, so for any sport_key that
contains a character outside 0-9a-f (as every real sport key does),
clear_cache_for_sport removes nothing: both the TTL cache and the
request-deduplication dict are left unchanged. -/
theorem C10_clear_cache_for_sport_noop (s : ClientState) (sport_key : String)
    (hkeys : ∀ k ∈ s.cache.map Prod.fst, ∃ e p, k = makeCacheKey e p)
    (hbad : ∃ c ∈ sport_key.toList, c ∉ hexChars) :
    clearCacheForSport s sport_key = s := by
  obtain ⟨c, hcmem, hchex⟩ := hbad
  have hnosub : ∀ k ∈ s.cache.map Prod.fst, strContains sport_key k = false := by
    intro k hk
    obtain ⟨e, p, hkey⟩ := hkeys k hk
    subst hkey
    by_contra hne
    have htrue : strContains sport_key (makeCacheKey e p) = true := by
      cases h : strContains sport_key (makeCacheKey e p)
      · exact absurd h hne
      · rfl
    have hinf := (strContains_true_iff _ _).mp htrue
    have hsub : c ∈ (makeCacheKey e p).toList := hinf.subset hcmem
    exact hchex (makeCacheKey_chars e p c hsub)
  have hempty : (s.cache.map Prod.fst).filter
      (fun k => strContains sport_key k) = [] := by
    rw [List.filter_eq_nil_iff]
    intro k hk
    simp [hnosub k hk]
  unfold clearCacheForSport
  rw [hempty]
  cases s with
  | mk cache reqCache usage => simp

/-- C10 witness: a state holding one genuinely constructed cache key is left
untouched when clearing the sport americanfootball_nfl. -/
theorem C10_clear_cache_for_sport_noop_witness :
    clearCacheForSport
        ⟨[(makeCacheKey "/sports" [], ⟨"d", 0, 3600⟩)],
         [(makeCacheKey "/sports" [], "d")], {}⟩ "americanfootball_nfl" =
      ⟨[(makeCacheKey "/sports" [], ⟨"d", 0, 3600⟩)],
       [(makeCacheKey "/sports" [], "d")], {}⟩ :=
  C10_clear_cache_for_sport_noop _ _
    (by
      intro k hk
      simp only [List.map_cons, List.map_nil, List.mem_singleton] at hk
      exact ⟨"/sports", [], hk⟩)
    ⟨'m', by decide, by decide⟩

/-! ## Odds data model (odds_api/schemas.py)

Python floats are modelled as rationals. -/

/-- Outcome schema: a betting outcome with its American price and an
optional line. -/
structure Outcome where
  name : String
  price : ℚ
  point : Option ℚ := none
  description : Option String := none
deriving Repr, DecidableEq

/-- Market schema. -/
structure Market where
  key : String
  last_update : Option String := none
  outcomes : List Outcome
deriving Repr, DecidableEq

/-- Bookmaker schema. -/
structure Bookmaker where
  key : String
  title : String
  last_update : String := ""
  markets : List Market
deriving Repr, DecidableEq

/-- Event schema. -/
structure Event where
  id : String := ""
  sport_key : String := ""
  commence_time : String := ""
  home_team : String
  away_team : String
  bookmakers : List Bookmaker
deriving Repr, DecidableEq

/-! ## Best and worst odds (odds_api/service.py, _find_best_odds and
_find_worst_odds, claim C2) -/

/-- One entry of the bookmaker_odds list assembled by compare_bookmaker_odds;
odds.get("price") returning None is the none case of the price field. -/
structure BookQuote where
  bookmaker_key : String := ""
  price : Option ℚ := none
  point : Option ℚ := none
deriving Repr, DecidableEq

/-- Replacement test of _find_best_odds: higher positive odds, less negative
negative odds, or positive over negative. A best entry always carries a
price, but the comparison is modelled on the optional field exactly as the
dict access best.get("price") reads it. -/
def betterB (price : ℚ) (bestPrice : Option ℚ) : Bool :=
  match bestPrice with
  | none => false
  | some b =>
    decide ((price > 0 ∧ b > 0 ∧ price > b) ∨ (price < 0 ∧ b < 0 ∧ price > b) ∨
      (price > 0 ∧ b < 0))

/-- Replacement test of _find_worst_odds: lower positive odds, more negative
negative odds, or negative under positive. -/
def worseB (price : ℚ) (worstPrice : Option ℚ) : Bool :=
  match worstPrice with
  | none => false
  | some w =>
    decide ((price > 0 ∧ w > 0 ∧ price < w) ∨ (price < 0 ∧ w < 0 ∧ price < w) ∨
      (price < 0 ∧ w > 0))

/-- Selection loop shared by _find_best_odds and _find_worst_odds: skip
entries with a missing price, adopt the first priced entry, and afterwards
replace the current champion whenever the replacement test fires. -/
def findOddsGo (repl : ℚ → Option ℚ → Bool) (best : Option BookQuote) :
    List BookQuote → Option BookQuote
  | [] => best
  | q :: rest =>
    match q.price with
    | none => findOddsGo repl best rest
    | some p =>
      match best with
      | none => findOddsGo repl (some q) rest
      | some b =>
        if repl p b.price then findOddsGo repl (some q) rest
        else findOddsGo repl best rest

/-- OddsService._find_best_odds. -/
def findBestOdds (l : List BookQuote) : Option BookQuote := findOddsGo betterB none l

/-- OddsService._find_worst_odds. -/
def findWorstOdds (l : List BookQuote) : Option BookQuote := findOddsGo worseB none l

/-- American-odds ordering as the specification words it: between two
positive prices the higher is better, between two negative prices the
algebraically larger (closer to zero) is better, and any positive price
beats any negative price. specBetter p q reads "p is strictly better
than q". -/
def specBetter (p q : ℚ) : Prop :=
  (p > 0 ∧ q > 0 ∧ p > q) ∨ (p < 0 ∧ q < 0 ∧ p > q) ∨ (p > 0 ∧ q < 0)

theorem betterB_iff (p b : ℚ) : betterB p (some b) = true ↔ specBetter p b := by
  unfold betterB specBetter
  exact decide_eq_true_iff

theorem worseB_iff (p w : ℚ) : worseB p (some w) = true ↔ specBetter w p := by
  unfold worseB specBetter
  rw [decide_eq_true_iff]
  constructor
  · rintro (⟨h1, h2, h3⟩ | ⟨h1, h2, h3⟩ | ⟨h1, h2⟩)
    · exact Or.inl ⟨h2, h1, h3⟩
    · exact Or.inr (Or.inl ⟨h2, h1, h3⟩)
    · exact Or.inr (Or.inr ⟨h2, h1⟩)
  · rintro (⟨h1, h2, h3⟩ | ⟨h1, h2, h3⟩ | ⟨h1, h2⟩)
    · exact Or.inl ⟨h2, h1, h3⟩
    · exact Or.inr (Or.inl ⟨h2, h1, h3⟩)
    · exact Or.inr (Or.inr ⟨h2, h1⟩)

theorem specBetter_trans {a b c : ℚ} (h1 : specBetter a b) (h2 : specBetter b c) :
    specBetter a c := by
  unfold specBetter at *
  rcases h1 with ⟨ha, hb, hab⟩ | ⟨ha, hb, hab⟩ | ⟨ha, hb⟩ <;>
    rcases h2 with ⟨hc, hd, hcd⟩ | ⟨hc, hd, hcd⟩ | ⟨hc, hd⟩ <;>
    first
      | exact Or.inl ⟨by linarith, by linarith, by linarith⟩
      | exact Or.inr (Or.inl ⟨by linarith, by linarith, by linarith⟩)
      | exact Or.inr (Or.inr ⟨by linarith, by linarith⟩)

theorem specBetter_irrefl (a : ℚ) : ¬ specBetter a a := by
  unfold specBetter
  rintro (⟨h1, h2, h3⟩ | ⟨h1, h2, h3⟩ | ⟨h1, h2⟩) <;> linarith

theorem specBetter_total {a b : ℚ} (ha : a ≠ 0) (hb : b ≠ 0) :
    specBetter a b ∨ specBetter b a ∨ a = b := by
  unfold specBetter
  rcases lt_or_gt_of_ne ha with ha1 | ha1 <;> rcases lt_or_gt_of_ne hb with hb1 | hb1
  · rcases lt_trichotomy a b with h | h | h
    · exact Or.inr (Or.inl (Or.inr (Or.inl ⟨hb1, ha1, h⟩)))
    · exact Or.inr (Or.inr h)
    · exact Or.inl (Or.inr (Or.inl ⟨ha1, hb1, h⟩))
  · exact Or.inr (Or.inl (Or.inr (Or.inr ⟨hb1, ha1⟩)))
  · exact Or.inl (Or.inr (Or.inr ⟨ha1, hb1⟩))
  · rcases lt_trichotomy a b with h | h | h
    · exact Or.inr (Or.inl (Or.inl ⟨hb1, ha1, h⟩))
    · exact Or.inr (Or.inr h)
    · exact Or.inl (Or.inl ⟨ha1, hb1, h⟩)

/-- The selection loop started on a current champion returns a maximum of
the champion and the list with respect to the relation realised by the
replacement test, provided that relation is transitive, total and
irreflexive on the (nonzero) prices involved. -/
theorem findOddsGo_spec (repl : ℚ → Option ℚ → Bool) (R : ℚ → ℚ → Prop)
    (hrepl : ∀ p b, repl p (some b) = true ↔ R p b)
    (htrans : ∀ a b c, R a b → R b c → R a c)
    (htotal : ∀ a b, a ≠ 0 → b ≠ 0 → R a b ∨ R b a ∨ a = b)
    (hirrefl : ∀ a, ¬ R a a) :
    ∀ (l : List BookQuote), (∀ q ∈ l, ∀ p, q.price = some p → p ≠ 0) →
      ∀ (cur : BookQuote) (pcur : ℚ), cur.price = some pcur → pcur ≠ 0 →
      ∃ r pr, findOddsGo repl (some cur) l = some r ∧ r.price = some pr ∧
        pr ≠ 0 ∧ (r = cur ∨ r ∈ l) ∧ ¬ R pcur pr ∧
        (∀ q ∈ l, ∀ pq, q.price = some pq → ¬ R pq pr) := by
  intro l
  induction l with
  | nil =>
    intro _ cur pcur hcur hcur0
    exact ⟨cur, pcur, rfl, hcur, hcur0, Or.inl rfl, hirrefl pcur,
      by intro q hq; simp at hq⟩
  | cons q rest ih =>
    intro hnz cur pcur hcur hcur0
    have hnzrest : ∀ q0 ∈ rest, ∀ p, q0.price = some p → p ≠ 0 := by
      intro q0 hq0 p hp
      exact hnz q0 (List.mem_cons_of_mem _ hq0) p hp
    rcases hq : q.price with _ | pq
    · -- entry with missing price: skipped
      obtain ⟨r, pr, hrun, hrp, hpr0, hmem, hnotR, hall⟩ :=
        ih hnzrest cur pcur hcur hcur0
      refine ⟨r, pr, ?_, hrp, hpr0, ?_, hnotR, ?_⟩
      · simpa [findOddsGo, hq] using hrun
      · rcases hmem with h | h
        · exact Or.inl h
        · exact Or.inr (List.mem_cons_of_mem _ h)
      · intro q0 hq0 pq0 hpq0
        rcases List.mem_cons.mp hq0 with h | h
        · subst h
          rw [hq] at hpq0
          exact absurd hpq0 (by simp)
        · exact hall q0 h pq0 hpq0
    · have hpq0 : pq ≠ 0 := hnz q (List.mem_cons_self _ _) pq hq
      by_cases hb : repl pq cur.price = true
      · -- the new entry replaces the champion
        have hR : R pq pcur := by
          rw [hcur] at hb
          exact (hrepl _ _).mp hb
        obtain ⟨r, pr, hrun, hrp, hpr0, hmem, hnotR, hall⟩ :=
          ih hnzrest q pq hq hpq0
        refine ⟨r, pr, ?_, hrp, hpr0, ?_, ?_, ?_⟩
        · rw [hcur] at hb
          simpa [findOddsGo, hq, hcur, hb] using hrun
        · rcases hmem with h | h
          · exact Or.inr (h ▸ List.mem_cons_self _ _)
          · exact Or.inr (List.mem_cons_of_mem _ h)
        · intro hcontra
          exact hnotR (htrans _ _ _ hR hcontra)
        · intro q0 hq0 pq0 hpq0
          rcases List.mem_cons.mp hq0 with h | h
          · subst h
            rw [hq] at hpq0
            injection hpq0 with h
            exact h ▸ hnotR
          · exact hall q0 h pq0 hpq0
      · -- the champion stays
        have hnR : ¬ R pq pcur := by
          rw [hcur] at hb
          intro hcontra
          exact hb ((hrepl _ _).mpr hcontra)
        obtain ⟨r, pr, hrun, hrp, hpr0, hmem, hnotR, hall⟩ :=
          ih hnzrest cur pcur hcur hcur0
        refine ⟨r, pr, ?_, hrp, hpr0, ?_, hnotR, ?_⟩
        · rw [hcur] at hb
          simpa [findOddsGo, hq, hcur, hb] using hrun
        · rcases hmem with h | h
          · exact Or.inl h
          · exact Or.inr (List.mem_cons_of_mem _ h)
        · intro q0 hq0 pq1 hpq1
          rcases List.mem_cons.mp hq0 with h | h
          · subst h
            rw [hq] at hpq1
            injection hpq1 with h
            subst h
            intro hcontra
            rcases htotal pq pcur hpq0 hcur0 with h1 | h1 | h1
            · exact hnR h1
            · exact hnotR (htrans _ _ _ h1 hcontra)
            · exact hnotR (h1 ▸ hcontra)
          · exact hall q0 h pq1 hpq1

/-- Selection over a whole list (starting champion None, as the Python
functions do) yields an element of the list that no listed price beats. -/
theorem findOddsGo_none_spec (repl : ℚ → Option ℚ → Bool) (R : ℚ → ℚ → Prop)
    (hrepl : ∀ p b, repl p (some b) = true ↔ R p b)
    (htrans : ∀ a b c, R a b → R b c → R a c)
    (htotal : ∀ a b, a ≠ 0 → b ≠ 0 → R a b ∨ R b a ∨ a = b)
    (hirrefl : ∀ a, ¬ R a a) :
    ∀ (l : List BookQuote), (∀ q ∈ l, ∀ p, q.price = some p → p ≠ 0) →
      ∀ r, findOddsGo repl none l = some r →
        r ∈ l ∧ ∃ pr, r.price = some pr ∧
          (∀ q ∈ l, ∀ pq, q.price = some pq → ¬ R pq pr) := by
  intro l
  induction l with
  | nil =>
    intro _ r hr
    simp [findOddsGo] at hr
  | cons q rest ih =>
    intro hnz r hr
    have hnzrest : ∀ q0 ∈ rest, ∀ p, q0.price = some p → p ≠ 0 := by
      intro q0 hq0 p hp
      exact hnz q0 (List.mem_cons_of_mem _ hq0) p hp
    rcases hq : q.price with _ | pq
    · rw [show findOddsGo repl none (q :: rest) = findOddsGo repl none rest by
        simp [findOddsGo, hq]] at hr
      obtain ⟨hmem, pr, hrp, hall⟩ := ih hnzrest r hr
      refine ⟨List.mem_cons_of_mem _ hmem, pr, hrp, ?_⟩
      intro q0 hq0 pq0 hpq0
      rcases List.mem_cons.mp hq0 with h | h
      · subst h
        rw [hq] at hpq0
        exact absurd hpq0 (by simp)
      · exact hall q0 h pq0 hpq0
    · have hpq0 : pq ≠ 0 := hnz q (List.mem_cons_self _ _) pq hq
      obtain ⟨r0, pr, hrun, hrp, hpr0, hmem, hnotR, hall⟩ :=
        findOddsGo_spec repl R hrepl htrans htotal hirrefl rest hnzrest q pq hq hpq0
      rw [show findOddsGo repl none (q :: rest) = findOddsGo repl (some q) rest by
        simp [findOddsGo, hq]] at hr
      rw [hrun] at hr
      injection hr with hr
      subst hr
      refine ⟨?_, pr, hrp, ?_⟩
      · rcases hmem with h | h
        · exact h ▸ List.mem_cons_self _ _
        · exact List.mem_cons_of_mem _ h
      · intro q0 hq0 pq0 hpq0
        rcases List.mem_cons.mp hq0 with h | h
        · subst h
          rw [hq] at hpq0
          injection hpq0 with h
          exact h ▸ hnotR
        · exact hall q0 h pq0 hpq0

/-- Entries with a missing price are invisible to the selection loop. -/
theorem findOddsGo_filter (repl : ℚ → Option ℚ → Bool) :
    ∀ (l : List BookQuote) (best : Option BookQuote),
      findOddsGo repl best (l.filter fun q => q.price.isSome) =
        findOddsGo repl best l := by
  intro l
  induction l with
  | nil => intro best; rfl
  | cons q rest ih =>
    intro best
    rcases hq : q.price with _ | pq
    · rw [List.filter_cons]
      simp only [hq, Option.isSome_none, Bool.false_eq_true, if_false]
      rw [ih]
      simp [findOddsGo, hq]
    · rw [List.filter_cons]
      simp only [hq, Option.isSome_some, if_true]
      rcases best with _ | b
      · simp only [findOddsGo, hq]
        exact ih _
      · simp only [findOddsGo, hq]
        by_cases hrepl : repl pq b.price = true <;> simp [hrepl, ih]

/-- C2. The best/worst selection follows the American-odds ordering: the
quoted examples hold, for any two negative prices the one closer to zero is
best, entries with a missing price are excluded from both computations, and
on any collection of quotes with nonzero prices the returned best (worst)
entry is a listed quote whose price no other listed price beats (is beaten
by). -/
theorem C2_best_worst_american_odds :
    (findBestOdds [⟨"a", some (-110), none⟩, ⟨"b", some 120, none⟩] =
        some ⟨"b", some 120, none⟩) ∧
    (findBestOdds [⟨"a", some (-110), none⟩, ⟨"b", some (-105), none⟩] =
        some ⟨"b", some (-105), none⟩) ∧
    (findWorstOdds [⟨"a", some (-110), none⟩, ⟨"b", some 120, none⟩] =
        some ⟨"a", some (-110), none⟩) ∧
    (∀ p1 p2 : ℚ, p1 < p2 → p2 < 0 → ∀ k1 k2 : String,
      findBestOdds [⟨k1, some p1, none⟩, ⟨k2, some p2, none⟩] =
        some ⟨k2, some p2, none⟩) ∧
    (∀ l : List BookQuote,
      findBestOdds (l.filter fun q => q.price.isSome) = findBestOdds l ∧
      findWorstOdds (l.filter fun q => q.price.isSome) = findWorstOdds l) ∧
    (∀ l : List BookQuote, (∀ q ∈ l, ∀ p, q.price = some p → p ≠ 0) →
      (∀ r, findBestOdds l = some r → r ∈ l ∧ ∃ pr, r.price = some pr ∧
        ∀ q ∈ l, ∀ pq, q.price = some pq → ¬ specBetter pq pr) ∧
      (∀ r, findWorstOdds l = some r → r ∈ l ∧ ∃ pr, r.price = some pr ∧
        ∀ q ∈ l, ∀ pq, q.price = some pq → ¬ specBetter pr pq)) := by
  refine ⟨by decide, by decide, by decide, ?_, ?_, ?_⟩
  · intro p1 p2 h12 h20 k1 k2
    have h10 : p1 < 0 := lt_trans h12 h20
    have hb : betterB p2 (some p1) = true :=
      (betterB_iff p2 p1).mpr (Or.inr (Or.inl ⟨h20, h10, h12⟩))
    simp [findBestOdds, findOddsGo, hb]
  · intro l
    exact ⟨findOddsGo_filter betterB l none, findOddsGo_filter worseB l none⟩
  · intro l hnz
    constructor
    · intro r hr
      obtain ⟨hmem, pr, hrp, hall⟩ :=
        findOddsGo_none_spec betterB specBetter betterB_iff
          (fun _ _ _ h1 h2 => specBetter_trans h1 h2)
          (fun _ _ ha hb => specBetter_total ha hb)
          specBetter_irrefl l hnz r hr
      exact ⟨hmem, pr, hrp, hall⟩
    · intro r hr
      obtain ⟨hmem, pr, hrp, hall⟩ :=
        findOddsGo_none_spec worseB (fun a b => specBetter b a) worseB_iff
          (fun _ _ _ h1 h2 => specBetter_trans h2 h1)
          (fun a b ha hb => by
            rcases specBetter_total ha hb with h | h | h
            · exact Or.inr (Or.inl h)
            · exact Or.inl h
            · exact Or.inr (Or.inr h))
          (fun a => specBetter_irrefl a) l hnz r hr
      exact ⟨hmem, pr, hrp, hall⟩

/-- C2 witness: the negative-pair rule applied at (-110, -105), and the
maximality guarantee applied to a concrete mixed-sign collection. -/
theorem C2_best_worst_american_odds_witness :
    (findBestOdds [⟨"a", some (-110), none⟩, ⟨"b", some (-105), none⟩] =
        some ⟨"b", some (-105), none⟩) ∧
    (⟨"b", some 120, none⟩ ∈
        ([⟨"a", some (-110), none⟩, ⟨"b", some 120, none⟩] : List BookQuote) ∧
      ∃ pr, (⟨"b", some 120, none⟩ : BookQuote).price = some pr ∧
        ∀ q ∈ ([⟨"a", some (-110), none⟩, ⟨"b", some 120, none⟩] : List BookQuote),
          ∀ pq, q.price = some pq → ¬ specBetter pq pr) := by
  constructor
  · exact C2_best_worst_american_odds.2.2.2.1 (-110) (-105) (by norm_num)
      (by norm_num) "a" "b"
  · refine (C2_best_worst_american_odds.2.2.2.2.2 _ ?_).1 _ (by decide)
    intro q hq p hp
    rcases List.mem_cons.mp hq with h | h
    · subst h
      injection hp with hp
      rw [← hp]
      norm_num
    · rcases List.mem_cons.mp h with h1 | h1
      · subst h1
        injection hp with hp
        rw [← hp]
        norm_num
      · simp at h1

/-! ## Outcome matching (odds_api/service.py, _outcome_matches_bet,
claim C6) -/

/-- Bet details dict as consumed by _outcome_matches_bet: the bet type read
by .get("bet_type"), the team and side strings (read with default "") and
the optional point. -/
structure BetDetails where
  bet_type : Option String := none
  team : String := ""
  side : String := ""
  point : Option ℚ := none
deriving Repr, DecidableEq

/-- Python truthiness of an optional float: None and 0 are falsy. -/
def pyTruthy (x : Option ℚ) : Bool :=
  match x with
  | none => false
  | some q => decide (q ≠ 0)

/-- Lowercased string. -/
def strLower (s : String) : String := String.mk (pyLower s.toList)

/-- OddsService._outcome_matches_bet. The Python function returns the value
of an and-chain whose truthiness the caller tests; that truthiness is the
Bool computed here. The and-chain guards the |outcome.point - point| < 0.1
test behind the truthiness of both points, so a missing or zero point on
either side yields no match. -/
def outcomeMatchesBet (o : Outcome) (b : BetDetails) : Bool :=
  let team := strLower b.team
  let side := strLower b.side
  match b.bet_type with
  | some "h2h" => strContains team (strLower o.name)
  | some "spreads" =>
    strContains team (strLower o.name) && pyTruthy b.point && pyTruthy o.point &&
      decide (|o.point.iget - b.point.iget| < (1 : ℚ) / 10)
  | some "totals" =>
    (strLower o.name == side) && pyTruthy b.point && pyTruthy o.point &&
      decide (|o.point.iget - b.point.iget| < (1 : ℚ) / 10)
  | _ => false

/-- C6 counterexample: the claim states that a spread outcome matches iff
the team substring test passes and |outcome.point - bet.point| < 0.1, for
every point value including 0. For a pick-em line (point 0 on both sides)
the substring and distance conditions hold, yet the code reports no match:
Python truthiness of the 0 line short-circuits the and-chain. -/
theorem C6_zero_point_spread_never_matches :
    outcomeMatchesBet ⟨"Kansas City Chiefs", -110, some 0, none⟩
        ⟨some "spreads", "Chiefs", "", some 0⟩ = false ∧
    strContains (strLower "Chiefs") (strLower "Kansas City Chiefs") = true ∧
    |(0 : ℚ) - 0| < 1 / 10 := by
  refine ⟨by decide, by decide, by norm_num⟩

/-- C6 as amended: an outcome matches a spread bet iff the team is a
case-insensitive substring of the outcome name, both points are present and
nonzero, and the points differ by less than 0.1; it matches a total bet iff
the lowercased outcome name equals the lowercased side, both points are
present and nonzero, and the points differ by less than 0.1. -/
theorem C6_outcome_matching (o : Outcome) (b : BetDetails) :
    (b.bet_type = some "spreads" →
      (outcomeMatchesBet o b = true ↔
        strContains (strLower b.team) (strLower o.name) = true ∧
        ∃ p q, b.point = some p ∧ o.point = some q ∧ p ≠ 0 ∧ q ≠ 0 ∧
          |q - p| < 1 / 10)) ∧
    (b.bet_type = some "totals" →
      (outcomeMatchesBet o b = true ↔
        strLower o.name = strLower b.side ∧
        ∃ p q, b.point = some p ∧ o.point = some q ∧ p ≠ 0 ∧ q ≠ 0 ∧
          |q - p| < 1 / 10)) := by
  constructor
  · intro hbt
    rcases hp : b.point with _ | p <;> rcases hq : o.point with _ | q <;>
      simp [outcomeMatchesBet, hbt, hp, hq, pyTruthy, Option.iget, and_assoc]
  · intro hbt
    rcases hp : b.point with _ | p <;> rcases hq : o.point with _ | q <;>
      simp [outcomeMatchesBet, hbt, hp, hq, pyTruthy, Option.iget, and_assoc]

/-- C6 witness: the amended matching rule instantiated on a concrete spread
outcome and bet. -/
theorem C6_outcome_matching_witness :
    outcomeMatchesBet ⟨"Dallas Cowboys", -110, some (13 / 2), none⟩
        ⟨some "spreads", "Cowboys", "", some (13 / 2)⟩ = true ↔
      strContains (strLower "Cowboys") (strLower "Dallas Cowboys") = true ∧
      ∃ p q, (some (13 / 2) : Option ℚ) = some p ∧
        (some (13 / 2) : Option ℚ) = some q ∧ p ≠ 0 ∧ q ≠ 0 ∧ |q - p| < 1 / 10 :=
  (C6_outcome_matching ⟨"Dallas Cowboys", -110, some (13 / 2), none⟩
    ⟨some "spreads", "Cowboys", "", some (13 / 2)⟩).1 rfl

/-! ## Parlay leg parsing (odds_api/service.py, _parse_parlay_leg, claim C5)

The spread pattern is re.search of (.+?)\s*([+-]\d+\.?\d*): the engine tries
match start positions left to right; at a fixed start it grows the
non-greedy group 1 one character at a time (never across a newline), lets
the greedy whitespace run backtrack from longest to shortest, and accepts
the first position where a sign immediately followed by digits (with an
optional fraction) matches. The totals pattern is re.search of
(over|under)\s*(\d+\.?\d*) on the lowercased text. Both are reproduced
below; the numeric groups are kept in parsed form (sign flag, integer
digits, fraction digits), which float() turns into a rational value. -/

/-- Structured result of _parse_parlay_leg; dict keys that a branch does
not set are none. The bet_type strings are the market keys used by the
code: h2h is a moneyline, spreads a spread, totals a total. -/
structure ParsedLeg where
  bet_type : String
  team : Option String := none
  side : Option String := none
  point : Option ℚ := none
deriving Repr, DecidableEq

/-- Sign and digit groups of a matched [+-]\d+\.?\d* token. -/
structure SignedNum where
  neg : Bool
  intPart : List Char
  fracPart : List Char
deriving Repr, DecidableEq

/-- Numeric value of a digit string. -/
def digitsToNat (l : List Char) : Nat :=
  l.foldl (fun acc c => 10 * acc + (c.toNat - 48)) 0

/-- Value of integer digits plus fraction digits, as float() reads them:
the rational (int * 10^k + frac) / 10^k with k the number of fraction
digits, which equals int + frac / 10^k (see numMagParts_eq). -/
def numMagParts (ip fp : List Char) : ℚ :=
  mkRat (digitsToNat ip * 10 ^ fp.length + digitsToNat fp) (10 ^ fp.length)

theorem numMagParts_eq (ip fp : List Char) :
    numMagParts ip fp =
      (digitsToNat ip : ℚ) + (digitsToNat fp : ℚ) / 10 ^ fp.length := by
  unfold numMagParts
  rw [Rat.mkRat_eq_div]
  push_cast
  field_simp

/-- Magnitude of a matched signed number. -/
def numMag (n : SignedNum) : ℚ := numMagParts n.intPart n.fracPart

/-- float() value of a matched signed number (float("-0") compares equal
to 0, as does the rational 0 here). -/
def numVal (n : SignedNum) : ℚ := if n.neg then -(numMag n) else numMag n

/-- Match \d+\.?\d* at the head of the list: one or more digits, then an
optional dot with optional further digits. -/
def matchNumAt (l : List Char) : Option (List Char × List Char) :=
  let ds := l.takeWhile pyDigit
  if ds.isEmpty then none
  else
    match l.dropWhile pyDigit with
    | '.' :: r2 => some (ds, r2.takeWhile pyDigit)
    | _ => some (ds, [])

/-- Match [+-]\d+\.?\d* at the head of the list. -/
def matchSignNumAt : List Char → Option SignedNum
  | [] => none
  | c :: rest =>
    if c = '+' ∨ c = '-' then
      match matchNumAt rest with
      | some (ip, fp) => some ⟨c = '-', ip, fp⟩
      | none => none
    else none

/-- Greedy backtracking of the \s* between group 1 and the sign: try the
sign match after i whitespace characters, for i from the full run length
down to zero. -/
def spreadTryWs (rest : List Char) : Nat → Option SignedNum
  | 0 => matchSignNumAt rest
  | i + 1 =>
    match matchSignNumAt (rest.drop (i + 1)) with
    | some n => some n
    | none => spreadTryWs rest i

/-- Non-greedy growth of group 1 at a fixed match start: k is the current
group 1 length (at least one character, none of them a newline); at each k
the whitespace run after group 1 backtracks from longest to shortest. The
fuel, one unit per remaining k value, always suffices. -/
def spreadKLoop (l : List Char) : Nat → Nat → Option (Nat × SignedNum)
  | _, 0 => none
  | k, fuel + 1 =>
    if k ≤ l.length then
      if l.getD (k - 1) ' ' = '\n' then none
      else
        let rest := l.drop k
        match spreadTryWs rest (rest.takeWhile pySpace).length with
        | some n => some (k, n)
        | none => spreadKLoop l (k + 1) fuel
    else none

/-- re.search of (.+?)\s*([+-]\d+\.?\d*): try match start positions left to
right, returning group 1 and the signed number of the first success. -/
def spreadSearch : List Char → Option (List Char × SignedNum)
  | [] => none
  | c :: t =>
    match spreadKLoop (c :: t) 1 (c :: t).length with
    | some (k, n) => some ((c :: t).take k, n)
    | none => spreadSearch t

/-- Number after the whitespace run following over/under: the \s* is
greedy, and backtracking cannot help because a shorter run leaves a
whitespace character where the first digit is required. -/
def totalNumAfter (l : List Char) : Option (List Char × List Char) :=
  matchNumAt (l.dropWhile pySpace)

/-- re.search of (over|under)\s*(\d+\.?\d*) on lowercased text: scan start
positions left to right; at each, try the over branch, then the under
branch, then the digits; on failure move one character right. -/
def totalSearch : List Char → Option (Bool × List Char × List Char)
  | [] => none
  | c :: t =>
    if ['o', 'v', 'e', 'r'].isPrefixOf (c :: t) then
      match totalNumAfter ((c :: t).drop 4) with
      | some (ip, fp) => some (true, ip, fp)
      | none => totalSearch t
    else if ['u', 'n', 'd', 'e', 'r'].isPrefixOf (c :: t) then
      match totalNumAfter ((c :: t).drop 5) with
      | some (ip, fp) => some (false, ip, fp)
      | none => totalSearch t
    else totalSearch t

/-- OddsService._parse_parlay_leg: strip, then moneyline when the uppercased
text contains ML (team = text with ML and ml occurrences removed, stripped),
else spread from the first signed-number match (side home when the parsed
value is negative, point its absolute value), else total from the first
over/under-with-number match, else None. -/
def parseParlayLeg (legText : String) : Option ParsedLeg :=
  let l := pyStrip legText.toList
  if decide (['M', 'L'] <:+: pyUpper l) then
    some { bet_type := "h2h"
           team := some (String.mk (pyStrip (pyRemovePair 'm' 'l'
             (pyRemovePair 'M' 'L' l))))
           side := none }
  else
    match spreadSearch l with
    | some (g1, n) =>
      some { bet_type := "spreads"
             team := some (String.mk (pyStrip g1))
             side := some (if numVal n < 0 then "home" else "away")
             point := some |numVal n| }
    | none =>
      match totalSearch (pyLower l) with
      | some (isOver, ip, fp) =>
        some { bet_type := "totals"
               team := none
               side := some (if isOver then "over" else "under")
               point := some (numMagParts ip fp) }
      | none => none

theorem numMag_nonneg (n : SignedNum) : 0 ≤ numMag n := by
  unfold numMag
  rw [numMagParts_eq]
  positivity

theorem numVal_neg_iff (n : SignedNum) :
    numVal n < 0 ↔ n.neg = true ∧ numMag n ≠ 0 := by
  unfold numVal
  rcases hn : n.neg with _ | _
  · simp only [Bool.false_eq_true, if_false, false_and, iff_false, not_lt]
    exact numMag_nonneg n
  · simp only [eq_self_iff_true, true_and, if_true]
    constructor
    · intro h h0
      rw [h0] at h
      norm_num at h
    · intro h0
      have h1 : 0 < numMag n := lt_of_le_of_ne (numMag_nonneg n) (Ne.symm h0)
      linarith

/-- C5 counterexample: "Chiefs -0" is spread-shaped with sign minus, so the
claim requires side home, but float("-0") is not less than 0 and the code
answers side away. -/
theorem C5_minus_zero_spread_is_away :
    parseParlayLeg "Chiefs -0" =
      some ⟨"spreads", some "Chiefs", some "away", some 0⟩ ∧
    some "away" ≠ some "home" := by
  exact ⟨by decide, by decide⟩

/-- C5 as amended: the five quoted mappings hold, and every spread-shaped
input is parsed with team = the stripped phrase before the sign, point =
abs(number), and side = home iff the sign is minus and the number is
nonzero (a -0 line comes out side away because the code branches on the
parsed value being negative). -/
theorem C5_leg_parsing :
    (parseParlayLeg "Chiefs -6.5" =
        some ⟨"spreads", some "Chiefs", some "home", some (mkRat 13 2)⟩) ∧
    (parseParlayLeg "Raiders +7" =
        some ⟨"spreads", some "Raiders", some "away", some 7⟩) ∧
    (parseParlayLeg "Over 47.5" =
        some ⟨"totals", none, some "over", some (mkRat 95 2)⟩) ∧
    (parseParlayLeg "Cowboys ML" = some ⟨"h2h", some "Cowboys", none, none⟩) ∧
    (parseParlayLeg "gibberish text" = none) ∧
    (∀ (s : String) (g1 : List Char) (n : SignedNum),
      ¬ (['M', 'L'] <:+: pyUpper (pyStrip s.toList)) →
      spreadSearch (pyStrip s.toList) = some (g1, n) →
      parseParlayLeg s =
        some ⟨"spreads", some (String.mk (pyStrip g1)),
          some (if n.neg = true ∧ numMag n ≠ 0 then "home" else "away"),
          some (numMag n)⟩) := by
  refine ⟨by decide, by decide, by decide, by decide, by decide, ?_⟩
  intro s g1 n hml hsearch
  have hside : (if numVal n < 0 then "home" else "away") =
      (if n.neg = true ∧ numMag n ≠ 0 then "home" else "away") := by
    by_cases h : numVal n < 0
    · rw [if_pos h, if_pos ((numVal_neg_iff n).mp h)]
    · rw [if_neg h, if_neg (fun hc => h ((numVal_neg_iff n).mpr hc))]
  have habs : |numVal n| = numMag n := by
    unfold numVal
    rcases hn : n.neg with _ | _
    · simp [abs_of_nonneg (numMag_nonneg n)]
    · simp [abs_of_nonpos (neg_nonpos_of_nonneg (numMag_nonneg n))]
  unfold parseParlayLeg
  rw [if_neg (by simpa using hml), hsearch]
  dsimp only
  rw [hside, habs]

/-- C5 witness: the general spread rule applied to the concrete input
"Chiefs -6.5". -/
theorem C5_leg_parsing_witness :
    parseParlayLeg "Chiefs -6.5" =
      some ⟨"spreads", some (String.mk (pyStrip "Chiefs".toList)),
        some (if (true = true ∧ numMag ⟨true, ['6'], ['5']⟩ ≠ 0) then "home"
          else "away"),
        some (numMag ⟨true, ['6'], ['5']⟩)⟩ :=
  C5_leg_parsing.2.2.2.2.2 "Chiefs -6.5" "Chiefs".toList ⟨true, ['6'], ['5']⟩
    (by decide) (by decide)

/-! ## Arbitrage screen (odds_api/helpers.py, get_arbitrage_opportunities,
claim C4)

The function receives the fetched h2h events; the upstream fetch itself is
claim C1/C3 territory. Python float arithmetic is modelled over rationals
(0.95 as 19/20). -/

/-- Entry appended to arbitrage_ops. -/
structure ArbEntry where
  game : String
  commence_time : String
  best_home_odds : ℚ
  best_away_odds : ℚ
  total_implied_probability : ℚ
  potential_profit : ℚ
deriving Repr, DecidableEq

/-- Odds collection loop of get_arbitrage_opportunities: for every
bookmaker and every h2h market, file each outcome price under the
bookmaker title into the home dict when the home team name occurs in the
outcome name, else into the away dict when the away team name does
(case-sensitive substring tests, as in the source). -/
def collectH2hOdds (event : Event) : List (String × ℚ) × List (String × ℚ) :=
  event.bookmakers.foldl (fun acc bm =>
    bm.markets.foldl (fun acc2 mk =>
      if mk.key = "h2h" then
        mk.outcomes.foldl (fun acc3 o =>
          if strContains event.home_team o.name then
            (dictInsert acc3.1 bm.title o.price, acc3.2)
          else if strContains event.away_team o.name then
            (acc3.1, dictInsert acc3.2 bm.title o.price)
          else acc3) acc2
      else acc2) acc) ([], [])

/-- Python max() over the values of a nonempty dict (the empty case is
unreachable behind the nonemptiness guard; 0 is returned there only to
totalise). -/
def dictValuesMax (m : List (String × ℚ)) : ℚ :=
  match m with
  | [] => 0
  | kv :: t => t.foldl (fun acc kv2 => max acc kv2.2) kv.2

/-- Per-event body of the get_arbitrage_opportunities loop: collect both
sides, require both dicts nonempty, require both plain maxima above +100,
convert each side with 100/(price+100) for positive prices and 0 otherwise,
and flag the event when the summed implied probability is below 0.95,
reporting potential_profit = (1 - sum) * 100. -/
def arbCheck (event : Event) : Option ArbEntry :=
  let odds := collectH2hOdds event
  if odds.1 ≠ [] ∧ odds.2 ≠ [] then
    let bestHome := dictValuesMax odds.1
    let bestAway := dictValuesMax odds.2
    if bestHome > 100 ∧ bestAway > 100 then
      let homeProb := if bestHome > 0 then 100 / (bestHome + 100) else 0
      let awayProb := if bestAway > 0 then 100 / (bestAway + 100) else 0
      let totalProb := homeProb + awayProb
      if totalProb < mkRat 19 20 then
        some ⟨event.away_team ++ " @ " ++ event.home_team, event.commence_time,
          bestHome, bestAway, totalProb, (1 - totalProb) * 100⟩
      else none
    else none
  else none

/-- get_arbitrage_opportunities on the fetched events: scan events[:limit]
and return the flagged entries, again cut to limit. -/
def getArbitrageOpportunities (events : List Event) (limit : Nat) :
    List ArbEntry :=
  ((events.take limit).filterMap arbCheck).take limit

/-- Implied probability of an American price as the specification words it:
100/(price+100) when positive, |price|/(|price|+100) when negative. The
definition follows the words of the spec, for comparison with the code. -/
def specImpliedProb (price : ℚ) : ℚ :=
  if price > 0 then 100 / (price + 100) else |price| / (|price| + 100)

/-- Single-bookmaker h2h market over a home/away outcome pair. -/
def mkH2hEvent (homePrice awayPrice : ℚ) : Event where
  home_team := "H"
  away_team := "A"
  commence_time := "ct"
  bookmakers :=
    [⟨"b", "B", "",
      [⟨"h2h", none, [⟨"H", homePrice, none, none⟩, ⟨"A", awayPrice, none, none⟩]⟩]⟩]

/-- Event with best home price +150 and best away price +130 from the
testable-properties example. -/
def arbExampleEvent : Event := mkH2hEvent 150 130

/-- Event whose best prices +100 and +1000 give an implied-probability sum
far below 0.95 while failing the best_home > 100 guard. -/
def arbGuardEvent : Event := mkH2hEvent 100 1000

theorem arbExample_collect :
    collectH2hOdds arbExampleEvent = ([("B", 150)], [("B", 130)]) := by decide

theorem arbGuard_collect :
    collectH2hOdds arbGuardEvent = ([("B", 100)], [("B", 1000)]) := by decide

/-- Evaluation of the per-event check on the +150/+130 example: flagged,
with implied-probability sum 96/115 and potential profit 380/23. -/
theorem arbCheck_example :
    arbCheck arbExampleEvent =
      some ⟨"A @ H", "ct", 150, 130, mkRat 96 115, mkRat 380 23⟩ := by
  unfold arbCheck
  rw [arbExample_collect]
  norm_num [dictValuesMax, arbExampleEvent, mkH2hEvent, Rat.mkRat_eq_div]
  rfl

/-- Evaluation of the per-event check on the +100/+1000 event: not flagged,
because the best home price does not exceed +100. -/
theorem arbCheck_guard : arbCheck arbGuardEvent = none := by
  unfold arbCheck
  rw [arbGuard_collect]
  norm_num [dictValuesMax]

/-- Evaluation of the arbitrage screen on the +150/+130 example. -/
theorem arbExample_eval :
    getArbitrageOpportunities [arbExampleEvent] 3 =
      [⟨"A @ H", "ct", 150, 130, mkRat 96 115, mkRat 380 23⟩] := by
  unfold getArbitrageOpportunities
  simp [arbCheck_example]

/-- C4 counterexample: the screen does not flag exactly when the summed
implied probability is below 0.95 - an event with best prices +100 and
+1000 has sum about 0.59 < 0.95 yet is not flagged, because the code also
requires both best prices to exceed +100 - and on the +150/+130 example
the implied probabilities sum to about 0.835 (not 0.4348) and the reported
potential_profit is 380/23, about 16.5, not approximately 56.5. -/
theorem C4_threshold_and_profit_counterexample :
    (getArbitrageOpportunities [arbGuardEvent] 3 = []) ∧
    (specImpliedProb 100 + specImpliedProb 1000 < mkRat 19 20) ∧
    ((getArbitrageOpportunities [arbExampleEvent] 3).map
        (·.potential_profit) = [mkRat 380 23]) ∧
    (mkRat 380 23 < 17) ∧
    ((getArbitrageOpportunities [arbExampleEvent] 3).map
        (·.total_implied_probability) = [mkRat 96 115]) ∧
    (mkRat 96 115 > mkRat 8 10) := by
  refine ⟨?_, ?_, ?_, by decide, ?_, by decide⟩
  · unfold getArbitrageOpportunities
    simp [arbCheck_guard]
  · norm_num [specImpliedProb, Rat.mkRat_eq_div]
  · rw [arbExample_eval]
    rfl
  · rw [arbExample_eval]
    rfl

/-- C4 as amended: every flagged entry has both best prices above +100 and
a summed implied probability below 0.95 computed side-wise as
100/(price+100) (which agrees with the spec formula since both prices are
positive there; the negative-price branch of the code yields 0 and is
unreachable behind the guard), with potential_profit = (1 - sum) * 100;
conversely an event passing the nonemptiness and +100 guards whose sum is
below 0.95 is flagged; and on the +150/+130 example the screen flags the
game with sum 96/115 (about 0.835) and potential_profit 380/23 (about
16.5). -/
theorem C4_arbitrage_screen :
    (∀ (events : List Event) (limit : Nat) (e : ArbEntry),
      e ∈ getArbitrageOpportunities events limit →
        e.best_home_odds > 100 ∧ e.best_away_odds > 100 ∧
        e.total_implied_probability =
          specImpliedProb e.best_home_odds + specImpliedProb e.best_away_odds ∧
        e.total_implied_probability < mkRat 19 20 ∧
        e.potential_profit = (1 - e.total_implied_probability) * 100) ∧
    (∀ ev : Event,
      (collectH2hOdds ev).1 ≠ [] → (collectH2hOdds ev).2 ≠ [] →
      dictValuesMax (collectH2hOdds ev).1 > 100 →
      dictValuesMax (collectH2hOdds ev).2 > 100 →
      specImpliedProb (dictValuesMax (collectH2hOdds ev).1) +
          specImpliedProb (dictValuesMax (collectH2hOdds ev).2) < mkRat 19 20 →
      arbCheck ev ≠ none) ∧
    (getArbitrageOpportunities [arbExampleEvent] 3 =
      [⟨"A @ H", "ct", 150, 130, mkRat 96 115, mkRat 380 23⟩]) := by
  refine ⟨?_, ?_, arbExample_eval⟩
  · intro events limit e hmem
    have hmem2 : e ∈ (events.take limit).filterMap arbCheck :=
      List.take_subset _ _ hmem
    obtain ⟨ev, _, hsome⟩ := List.mem_filterMap.mp hmem2
    unfold arbCheck at hsome
    by_cases h1 : (collectH2hOdds ev).1 ≠ [] ∧ (collectH2hOdds ev).2 ≠ []
    · rw [if_pos h1] at hsome
      by_cases h2 : dictValuesMax (collectH2hOdds ev).1 > 100 ∧
          dictValuesMax (collectH2hOdds ev).2 > 100
      · rw [if_pos h2] at hsome
        by_cases h3 :
            (if dictValuesMax (collectH2hOdds ev).1 > 0 then
              100 / (dictValuesMax (collectH2hOdds ev).1 + 100) else 0) +
            (if dictValuesMax (collectH2hOdds ev).2 > 0 then
              100 / (dictValuesMax (collectH2hOdds ev).2 + 100) else 0) <
              mkRat 19 20
        · rw [if_pos h3] at hsome
          injection hsome with hsome
          subst hsome
          have hp1 : dictValuesMax (collectH2hOdds ev).1 > 0 := by
            have := h2.1
            linarith
          have hp2 : dictValuesMax (collectH2hOdds ev).2 > 0 := by
            have := h2.2
            linarith
          refine ⟨h2.1, h2.2, ?_, ?_, rfl⟩
          · simp only [specImpliedProb, if_pos hp1, if_pos hp2]
          · rw [if_pos hp1, if_pos hp2] at h3
            simpa [if_pos hp1, if_pos hp2] using h3
        · rw [if_neg h3] at hsome
          exact absurd hsome (by simp)
      · rw [if_neg h2] at hsome
        exact absurd hsome (by simp)
    · rw [if_neg h1] at hsome
      exact absurd hsome (by simp)
  · intro ev h1 h2 h3 h4 h5
    unfold arbCheck
    rw [if_pos ⟨h1, h2⟩, if_pos ⟨h3, h4⟩]
    have hp1 : dictValuesMax (collectH2hOdds ev).1 > 0 := by linarith
    have hp2 : dictValuesMax (collectH2hOdds ev).2 > 0 := by linarith
    rw [if_pos (by
      rw [if_pos hp1, if_pos hp2]
      simpa [specImpliedProb, if_pos hp1, if_pos hp2] using h5)]
    simp

/-- C4 witness: the soundness guarantee applied to the entry flagged on the
+150/+130 example, and the flag condition applied to that event. -/
theorem C4_arbitrage_screen_witness :
    ((⟨"A @ H", "ct", 150, 130, mkRat 96 115, mkRat 380 23⟩ : ArbEntry).best_home_odds > 100 ∧
      (⟨"A @ H", "ct", 150, 130, mkRat 96 115, mkRat 380 23⟩ : ArbEntry).best_away_odds > 100 ∧
      (⟨"A @ H", "ct", 150, 130, mkRat 96 115, mkRat 380 23⟩ : ArbEntry).total_implied_probability =
        specImpliedProb (⟨"A @ H", "ct", 150, 130, mkRat 96 115, mkRat 380 23⟩ : ArbEntry).best_home_odds +
        specImpliedProb (⟨"A @ H", "ct", 150, 130, mkRat 96 115, mkRat 380 23⟩ : ArbEntry).best_away_odds ∧
      (⟨"A @ H", "ct", 150, 130, mkRat 96 115, mkRat 380 23⟩ : ArbEntry).total_implied_probability < mkRat 19 20 ∧
      (⟨"A @ H", "ct", 150, 130, mkRat 96 115, mkRat 380 23⟩ : ArbEntry).potential_profit =
        (1 - (⟨"A @ H", "ct", 150, 130, mkRat 96 115, mkRat 380 23⟩ : ArbEntry).total_implied_probability) * 100) ∧
    arbCheck arbExampleEvent ≠ none := by
  constructor
  · exact C4_arbitrage_screen.1 [arbExampleEvent] 3 _
      (by rw [C4_arbitrage_screen.2.2]; exact List.mem_singleton_self _)
  · exact C4_arbitrage_screen.2.1 arbExampleEvent
      (by rw [arbExample_collect]; simp)
      (by rw [arbExample_collect]; simp)
      (by rw [arbExample_collect]; norm_num [dictValuesMax])
      (by rw [arbExample_collect]; norm_num [dictValuesMax])
      (by
        rw [arbExample_collect]
        norm_num [dictValuesMax, specImpliedProb, Rat.mkRat_eq_div])

/-! ## Enrichment pipeline (odds_service.py, enrich_from_api_queries,
claim C8)

The per-sport fetch get_odds_for_sport is modelled as a function from sport
key to a payload or an error; within one pipeline call it is deterministic
(the cache serves repeats). datetime.now().isoformat() and the remaining
quota are explicit arguments. The raw game dicts have the shape of Event. -/

/-- Structured query dict from the query-extraction step, read with .get:
absent keys are none, and the defaults (sport americanfootball_nfl, empty
team name, 3 legs) are applied where the pipeline body applies them. -/
structure ApiQuery where
  query_type : Option String := none
  sport : Option String := none
  team_name : Option String := none
  num_legs : Option Nat := none
deriving Repr, DecidableEq

/-- OddsService.find_game_odds: fetch the sport and return the first game
whose home or away team contains the (lowercased) team name. -/
def findGameOdds (fetch : String → Except String (List Event))
    (sport team : String) : Except String (Option Event) :=
  match fetch sport with
  | .error e => .error e
  | .ok games =>
    .ok (games.find? fun g =>
      strContains (strLower team) (strLower g.home_team) ||
      strContains (strLower team) (strLower g.away_team))

/-- One suggested leg (bet_type is always moneyline; the human-facing
reasoning string is presentation of the same fields and is not modelled). -/
structure Suggestion where
  team : String
  current_odds : ℚ
  home_team : String
  away_team : String
  commence_time : String
  bookmaker : String
deriving Repr, DecidableEq

/-- Return dict of get_suggestions_for_sport: either the no-games message
shape or the suggestions shape. -/
inductive SuggOut where
  | noGames (sport : String) (fetched_at : String)
  | suggs (suggestions : List Suggestion) (num : Nat) (sport : String)
      (fetched_at : String) (requests_remaining : Option Int)
deriving Repr, DecidableEq

/-- Python min(outcomes, key abs price): the first outcome of minimal
absolute price. -/
def minByAbsPrice (first : Outcome) (rest : List Outcome) : Outcome :=
  rest.foldl (fun acc o => if |o.price| < |acc.price| then o else acc) first

/-- Per-game body of the suggestions loop: skip games without bookmakers,
take the first bookmaker and its first h2h market, and pick the favorite;
min() over an empty outcome list raises, which propagates out of the
function. -/
def suggestionForGame (game : Event) : Except String (List Suggestion) :=
  match game.bookmakers with
  | [] => .ok []
  | bm :: _ =>
    match bm.markets.find? (fun mk => mk.key == "h2h") with
    | none => .ok []
    | some mk =>
      match mk.outcomes with
      | [] => .error "min() arg is an empty sequence"
      | o :: rest =>
        .ok [⟨(minByAbsPrice o rest).name, (minByAbsPrice o rest).price,
          game.home_team, game.away_team, game.commence_time, bm.title⟩]

/-- Sequential run of the suggestions loop with exception propagation. -/
def suggestionsLoop : List Event → Except String (List Suggestion)
  | [] => .ok []
  | g :: rest =>
    match suggestionForGame g with
    | .error e => .error e
    | .ok s =>
      match suggestionsLoop rest with
      | .error e => .error e
      | .ok srest => .ok (s ++ srest)

/-- OddsService.get_suggestions_for_sport. -/
def getSuggestionsForSport (fetch : String → Except String (List Event))
    (now : String) (quota : Option Int) (sport : String) (numLegs : Nat) :
    Except String SuggOut :=
  match fetch sport with
  | .error e => .error e
  | .ok games =>
    if games = [] then .ok (.noGames sport now)
    else
      match suggestionsLoop (games.take numLegs) with
      | .error e => .error e
      | .ok s => .ok (.suggs (s.take numLegs) (s.take numLegs).length sport now quota)

/-- Entry of the all_games list assembled by enrich_from_api_queries. -/
structure GameEntry where
  game : Event
  query_type : String
  team_name : Option String := none
deriving Repr, DecidableEq

/-- Return dict of enrich_from_api_queries: a suggestions payload returned
directly, the no-data message shape, or the consolidated games shape. -/
inductive EnrichOut where
  | suggestionsOut (s : SuggOut)
  | noData (message : String) (fetched_at : String) (requests_remaining : Option Int)
  | gamesOut (games : List GameEntry) (num_games : Nat) (fetched_at : String)
      (requests_remaining : Option Int)
deriving Repr, DecidableEq

/-- Effect of one query on the loop state: either keep processing with
updated all_games and sports_fetched, or return an output immediately. -/
inductive StepRes where
  | next (acc : List GameEntry) (fetched : List String)
  | halt (out : EnrichOut)
deriving Repr, DecidableEq

/-- Body of the for loop of enrich_from_api_queries for one query: route by
query_type, catch any error from the routed call (log and continue), halt
with the suggestions payload on a successful suggestions query, and fetch a
sport for game_odds/player_props at most once per pipeline call. -/
def enrichStep (fetch : String → Except String (List Event)) (now : String)
    (quota : Option Int) (q : ApiQuery) (acc : List GameEntry)
    (fetched : List String) : StepRes :=
  let sport := q.sport.getD "americanfootball_nfl"
  match q.query_type with
  | none => .next acc fetched
  | some qt =>
    if qt = "team_odds" then
      match findGameOdds fetch sport (q.team_name.getD "") with
      | .error _ => .next acc fetched
      | .ok none => .next acc fetched
      | .ok (some g) =>
        .next (acc ++ [⟨g, "team_odds", some (q.team_name.getD "")⟩]) fetched
    else if qt = "suggestions" then
      match getSuggestionsForSport fetch now quota sport (q.num_legs.getD 3) with
      | .error _ => .next acc fetched
      | .ok s => .halt (.suggestionsOut s)
    else if qt = "player_props" ∨ qt = "game_odds" then
      if fetched.contains sport then .next acc fetched
      else
        match fetch sport with
        | .error _ => .next acc fetched
        | .ok games =>
          .next (acc ++ (games.take 5).map fun g => ⟨g, qt, none⟩)
            (sport :: fetched)
    else .next acc fetched

/-- Query loop of enrich_from_api_queries, followed by the result
formatting: the no-data message shape when nothing was collected, else the
games shape with num_games = len(all_games). -/
def enrichLoop (fetch : String → Except String (List Event)) (now : String)
    (quota : Option Int) : List ApiQuery → List GameEntry → List String →
    EnrichOut
  | [], acc, _ =>
    if acc = [] then .noData "No odds data found for your query." now quota
    else .gamesOut acc acc.length now quota
  | q :: rest, acc, fetched =>
    match enrichStep fetch now quota q acc fetched with
    | .next acc2 f2 => enrichLoop fetch now quota rest acc2 f2
    | .halt out => out

/-- OddsService.enrich_from_api_queries. -/
def enrichFromApiQueries (fetch : String → Except String (List Event))
    (now : String) (quota : Option Int) (queries : List ApiQuery) : EnrichOut :=
  enrichLoop fetch now quota queries [] []

/-- A query whose routed lower-level call raises: the pipeline prints the
error and continues with the remaining queries. -/
def queryFails (fetch : String → Except String (List Event)) (now : String)
    (quota : Option Int) (q : ApiQuery) : Prop :=
  (q.query_type = some "team_odds" ∧
    ∃ e, findGameOdds fetch (q.sport.getD "americanfootball_nfl")
      (q.team_name.getD "") = .error e) ∨
  (q.query_type = some "suggestions" ∧
    ∃ e, getSuggestionsForSport fetch now quota
      (q.sport.getD "americanfootball_nfl") (q.num_legs.getD 3) = .error e) ∨
  ((q.query_type = some "player_props" ∨ q.query_type = some "game_odds") ∧
    ∃ e, fetch (q.sport.getD "americanfootball_nfl") = .error e)

/-- A suggestions query whose lower-level call succeeds, the one case in
which the loop returns early. -/
def suggSucceeds (fetch : String → Except String (List Event)) (now : String)
    (quota : Option Int) (q : ApiQuery) : Prop :=
  q.query_type = some "suggestions" ∧
  ∃ s, getSuggestionsForSport fetch now quota
    (q.sport.getD "americanfootball_nfl") (q.num_legs.getD 3) = .ok s

theorem enrichStep_of_fails (fetch : String → Except String (List Event))
    (now : String) (quota : Option Int) (q : ApiQuery)
    (acc : List GameEntry) (fetched : List String)
    (h : queryFails fetch now quota q) :
    enrichStep fetch now quota q acc fetched = .next acc fetched := by
  rcases h with ⟨hqt, e, herr⟩ | ⟨hqt, e, herr⟩ | ⟨hqt, e, herr⟩
  · unfold enrichStep
    rw [hqt]
    simp [herr]
  · unfold enrichStep
    rw [hqt]
    simp [herr]
  · unfold enrichStep
    have hne1 : ∀ s, q.query_type = some s → s ≠ "team_odds" := by
      rcases hqt with hqt | hqt <;>
        (rw [hqt]; intro s hs; injection hs with hs; subst hs; decide)
    rcases hqt with hqt | hqt <;>
      · rw [hqt]
        by_cases hc : fetched.contains (q.sport.getD "americanfootball_nfl") <;>
          simp [hc, herr]

theorem enrichStep_no_halt (fetch : String → Except String (List Event))
    (now : String) (quota : Option Int) (q : ApiQuery)
    (acc : List GameEntry) (fetched : List String)
    (h : ¬ suggSucceeds fetch now quota q) :
    ∃ acc2 f2, enrichStep fetch now quota q acc fetched = .next acc2 f2 := by
  unfold enrichStep
  rcases hqt : q.query_type with _ | qt
  · exact ⟨acc, fetched, rfl⟩
  · by_cases h1 : qt = "team_odds"
    · subst h1
      rcases hf : findGameOdds fetch (q.sport.getD "americanfootball_nfl")
          (q.team_name.getD "") with e | g
      · exact ⟨acc, fetched, by simp [hf]⟩
      · rcases g with _ | g
        · exact ⟨acc, fetched, by simp [hf]⟩
        · exact ⟨acc ++ [⟨g, "team_odds", some (q.team_name.getD "")⟩], fetched,
            by simp [hf]⟩
    · by_cases h2 : qt = "suggestions"
      · subst h2
        rcases hs : getSuggestionsForSport fetch now quota
            (q.sport.getD "americanfootball_nfl") (q.num_legs.getD 3) with e | s
        · exact ⟨acc, fetched, by simp [h1, hs]⟩
        · exact absurd ⟨hqt, s, hs⟩ h
      · by_cases h3 : qt = "player_props" ∨ qt = "game_odds"
        · by_cases hc : fetched.contains (q.sport.getD "americanfootball_nfl") = true
          · refine ⟨acc, fetched, ?_⟩
            simp only [if_neg h1, if_neg h2, if_pos h3]
            rw [if_pos hc]
          · rcases hf : fetch (q.sport.getD "americanfootball_nfl") with e | games
            · refine ⟨acc, fetched, ?_⟩
              simp only [if_neg h1, if_neg h2, if_pos h3]
              rw [if_neg hc]
              simp [hf]
            · refine ⟨acc ++ (games.take 5).map fun g => ⟨g, qt, none⟩,
                q.sport.getD "americanfootball_nfl" :: fetched, ?_⟩
              simp only [if_neg h1, if_neg h2, if_pos h3]
              rw [if_neg hc]
              simp [hf]
        · exact ⟨acc, fetched, by simp [h1, h2, h3]⟩

theorem enrichLoop_cons (fetch : String → Except String (List Event))
    (now : String) (quota : Option Int) (q : ApiQuery) (rest : List ApiQuery)
    (acc : List GameEntry) (fetched : List String) :
    enrichLoop fetch now quota (q :: rest) acc fetched =
      match enrichStep fetch now quota q acc fetched with
      | .next a f => enrichLoop fetch now quota rest a f
      | .halt out => out := rfl

theorem enrichLoop_skip (fetch : String → Except String (List Event))
    (now : String) (quota : Option Int) (q : ApiQuery)
    (hq : queryFails fetch now quota q) :
    ∀ (l1 l2 : List ApiQuery) (acc : List GameEntry) (fetched : List String),
      enrichLoop fetch now quota (l1 ++ q :: l2) acc fetched =
        enrichLoop fetch now quota (l1 ++ l2) acc fetched := by
  intro l1
  induction l1 with
  | nil =>
    intro l2 acc fetched
    simp only [List.nil_append]
    rw [enrichLoop_cons, enrichStep_of_fails _ _ _ _ _ _ hq]
  | cons a t ih =>
    intro l2 acc fetched
    simp only [List.cons_append]
    rw [enrichLoop_cons, enrichLoop_cons]
    rcases hstep : enrichStep fetch now quota a acc fetched with ⟨a2, f2⟩ | out
    · exact ih l2 a2 f2
    · rfl

theorem enrichLoop_no_halt_prefix (fetch : String → Except String (List Event))
    (now : String) (quota : Option Int) :
    ∀ (l1 : List ApiQuery), (∀ q ∈ l1, ¬ suggSucceeds fetch now quota q) →
    ∀ (l2 : List ApiQuery) (acc : List GameEntry) (fetched : List String),
      ∃ acc2 f2, enrichLoop fetch now quota (l1 ++ l2) acc fetched =
        enrichLoop fetch now quota l2 acc2 f2 := by
  intro l1
  induction l1 with
  | nil =>
    intro _ l2 acc fetched
    exact ⟨acc, fetched, rfl⟩
  | cons a t ih =>
    intro hns l2 acc fetched
    obtain ⟨a2, f2, hstep⟩ :=
      enrichStep_no_halt fetch now quota a acc fetched
        (hns a (List.mem_cons_self _ _))
    rw [List.cons_append, enrichLoop_cons, hstep]
    exact ih (fun q hq => hns q (List.mem_cons_of_mem _ hq)) l2 a2 f2

/-- C8 as amended: each query is routed to its lower-level call and a query
whose call raises is logged and skipped, leaving the batch result exactly
that of the batch without it - with one exception the claim misses: a
suggestions query whose call succeeds makes the pipeline return that
suggestions payload immediately, discarding every previously collected
result and skipping all remaining queries. When no suggestions query
succeeds, the pipeline runs to completion and returns either the
consolidated games output (with num_games = the length of the merged games
list, the fetch timestamp and the remaining quota) or, when nothing was
collected, the no-data message shape. -/
theorem C8_enrichment_batching :
    (∀ (fetch : String → Except String (List Event)) (now : String)
        (quota : Option Int) (l1 l2 : List ApiQuery) (q : ApiQuery),
      queryFails fetch now quota q →
      enrichFromApiQueries fetch now quota (l1 ++ q :: l2) =
        enrichFromApiQueries fetch now quota (l1 ++ l2)) ∧
    (∀ (fetch : String → Except String (List Event)) (now : String)
        (quota : Option Int) (l1 l2 : List ApiQuery) (q : ApiQuery) (s : SuggOut),
      (∀ q2 ∈ l1, ¬ suggSucceeds fetch now quota q2) →
      q.query_type = some "suggestions" →
      getSuggestionsForSport fetch now quota
        (q.sport.getD "americanfootball_nfl") (q.num_legs.getD 3) = .ok s →
      enrichFromApiQueries fetch now quota (l1 ++ q :: l2) =
        .suggestionsOut s) ∧
    (∀ (fetch : String → Except String (List Event)) (now : String)
        (quota : Option Int) (qs : List ApiQuery),
      (∀ q ∈ qs, ¬ suggSucceeds fetch now quota q) →
      (∃ g, enrichFromApiQueries fetch now quota qs =
          .gamesOut g g.length now quota ∧ g ≠ []) ∨
        enrichFromApiQueries fetch now quota qs =
          .noData "No odds data found for your query." now quota) := by
  refine ⟨?_, ?_, ?_⟩
  · intro fetch now quota l1 l2 q hq
    exact enrichLoop_skip fetch now quota q hq l1 l2 [] []
  · intro fetch now quota l1 l2 q s hns hqt hok
    unfold enrichFromApiQueries
    obtain ⟨acc2, f2, hpre⟩ :=
      enrichLoop_no_halt_prefix fetch now quota l1 hns (q :: l2) [] []
    rw [hpre, enrichLoop_cons]
    have hstep : enrichStep fetch now quota q acc2 f2 =
        .halt (.suggestionsOut s) := by
      unfold enrichStep
      rw [hqt]
      dsimp only
      rw [if_neg (by decide : ¬ ("suggestions" = "team_odds"))]
      rw [if_pos rfl]
      rw [hok]
    rw [hstep]
  · intro fetch now quota qs hns
    unfold enrichFromApiQueries
    obtain ⟨acc2, f2, hpre⟩ :=
      enrichLoop_no_halt_prefix fetch now quota qs hns [] [] []
    rw [List.append_nil] at hpre
    rw [hpre]
    by_cases hacc : acc2 = []
    · right
      subst hacc
      rfl
    · left
      refine ⟨acc2, ?_, hacc⟩
      unfold enrichLoop
      rw [if_neg hacc]

/-- Fetch function of the concrete batch example: the NFL sport has one
game, home team H quoted -110 and away team A quoted +100 by bookmaker B. -/
def enrichExampleFetch : String → Except String (List Event) :=
  fun s => if s = "americanfootball_nfl" then .ok [mkH2hEvent (-110) 100]
    else .ok []

/-- A team_odds query for team H. -/
def teamQuery : ApiQuery := { query_type := some "team_odds", team_name := some "H" }

/-- A suggestions query with defaults. -/
def suggQuery : ApiQuery := { query_type := some "suggestions" }

/-- C8 counterexample: the claim says the results of all queries in the
batch are merged into one consolidated games output. Running a found
team_odds query followed by a suggestions query instead returns the
suggestions payload alone - the game found for the first query is absent
from the output - whereas the same team_odds query alone produces the
consolidated games output containing it. -/
theorem C8_suggestions_discard_batch :
    (enrichFromApiQueries enrichExampleFetch "t0" (some 42)
        [teamQuery, suggQuery] =
      .suggestionsOut (.suggs [⟨"A", 100, "H", "A", "ct", "B"⟩] 1
        "americanfootball_nfl" "t0" (some 42))) ∧
    (enrichFromApiQueries enrichExampleFetch "t0" (some 42) [teamQuery] =
      .gamesOut [⟨mkH2hEvent (-110) 100, "team_odds", some "H"⟩] 1 "t0"
        (some 42)) := by
  exact ⟨by decide, by decide⟩

/-- C8 witness: a failing team_odds query (upstream down) is skipped, the
batch result equalling that of the empty batch. -/
theorem C8_enrichment_batching_witness :
    enrichFromApiQueries (fun _ => .error "down") "t0" none [teamQuery] =
      enrichFromApiQueries (fun _ => .error "down") "t0" none [] :=
  C8_enrichment_batching.1 (fun _ => .error "down") "t0" none [] [] teamQuery
    (Or.inl ⟨rfl, "down", rfl⟩)

end DraftKiller
